import Mathlib

/-!
Verification of the Pocket Drums audio engine (src/app.js).

The JavaScript source is shallowly embedded here:
* time values (audio-clock seconds, wall-clock milliseconds) become `ℚ`;
* the `runScheduler` while-loop of the metronome becomes a fuel-indexed
  recursion (`schedLoop`); with a positive tempo the fuel needed per wake
  is the explicit `tickCount`, so all statements carry a sufficient-fuel
  hypothesis instead of unbounded recursion;
* event-driven control flow (timer callbacks, button handlers) becomes an
  explicit event trace folded over a state record;
* Web Audio gain automation (`setTargetAtTime`, `cancelScheduledValues`)
  becomes an event-list timeline with the standard exponential-approach
  semantics over `ℝ`;
* `localStorage` values become `Option String`, and `parseInt` returning
  `NaN` becomes `none`.
-/

/-! ## Metronome scheduler (src/app.js lines 333-366)

`state.lookahead = 25` (ms), `state.scheduleAheadTime = 0.12` (s); on
toggle-on `state.nextTick = ctx.currentTime + 0.05` and `runScheduler()`
is invoked immediately; each wake of `runScheduler` early-returns when the
metronome is off (without re-arming its timeout), otherwise schedules a
click at exactly `state.nextTick` while `nextTick < currentTime + 0.12`,
advancing `nextTick` by `60 / state.bpm`, and re-arms itself. -/

def scheduleAheadTime : ℚ := 12 / 100

def metroLeadIn : ℚ := 5 / 100

/-- Number of iterations the scheduling while-loop performs when entered
with next-tick `t`, loop deadline `deadline` and seconds-per-beat `spb`. -/
def tickCount (deadline spb t : ℚ) : ℕ := (⌈(deadline - t) / spb⌉).toNat

/-- The while-loop of `runScheduler`, fuel-indexed: emits the scheduled
click times and returns the final `nextTick`. -/
def schedLoop : ℕ → ℚ → ℚ → ℚ → List ℚ × ℚ
  | 0, _, _, t => ([], t)
  | fuel + 1, deadline, spb, t =>
    if t < deadline then
      let r := schedLoop fuel deadline spb (t + spb)
      (t :: r.1, r.2)
    else ([], t)

/-- The mutable scheduler state of src/app.js: `state.isMetronomeOn`,
whether a `setTimeout(runScheduler, ...)` is pending, `state.nextTick`
and `state.bpm`. -/
structure MetroState where
  isMetronomeOn : Bool
  armed : Bool
  nextTick : ℚ
  bpm : ℚ
  deriving DecidableEq

/-- Body of `runScheduler`, called with the timeout already consumed. -/
def runSchedulerBody (fuel : ℕ) (now : ℚ) (s : MetroState) : List ℚ × MetroState :=
  if s.isMetronomeOn = false then ([], s)
  else
    let secondsPerBeat := 60 / s.bpm
    let r := schedLoop fuel (now + scheduleAheadTime) secondsPerBeat s.nextTick
    (r.1, { s with nextTick := r.2, armed := true })

/-- External events driving the scheduler: a pending timeout firing at
audio-clock time `now`, the metronome button, and the tempo slider. -/
inductive MetroEvent
  | wake (now : ℚ)
  | toggle (now : ℚ)
  | setTempo (bpm : ℚ)
  deriving DecidableEq

/-- One step of the event loop.  A `wake` only fires when a timeout is
pending; it consumes it, and `runSchedulerBody` re-arms unless the
metronome was switched off (the early `return`).  `toggle` flips the
flag; turning on seeds `nextTick` and runs the scheduler synchronously.
`setTempo` is the input handler of the tempo slider (writes `state.bpm`). -/
def metroStep (fuel : ℕ) (s : MetroState) : MetroEvent → List ℚ × MetroState
  | .wake now =>
    if s.armed = true then runSchedulerBody fuel now { s with armed := false }
    else ([], s)
  | .toggle now =>
    if s.isMetronomeOn = false then
      runSchedulerBody fuel now { s with isMetronomeOn := true, nextTick := now + metroLeadIn }
    else ([], { s with isMetronomeOn := false })
  | .setTempo b => ([], { s with bpm := b })

/-- Folding a whole event trace, concatenating the scheduled click times
in order (click scheduling is append-only: `scheduleClick` starts an
oscillator at the given audio-clock time and nothing ever cancels it). -/
def runTrace (fuel : ℕ) : List MetroEvent → MetroState → List ℚ × MetroState
  | [], s => ([], s)
  | e :: es, s =>
    let r := metroStep fuel s e
    let r2 := runTrace fuel es r.2
    (r.1 ++ r2.1, r2.2)

/-- The arithmetic progression `t, t+spb, t+2·spb, ...` of length `n`. -/
def arith : ℚ → ℚ → ℕ → List ℚ
  | _, _, 0 => []
  | t, spb, n + 1 => t :: arith (t + spb) spb n

theorem arith_length (t spb : ℚ) : ∀ n, (arith t spb n).length = n := by
  intro n
  induction n generalizing t with
  | zero => rfl
  | succ m ih => simp [arith, ih]

theorem arith_eq_map_range (spb : ℚ) :
    ∀ (n : ℕ) (t : ℚ), arith t spb n = (List.range n).map (fun j : ℕ => t + (j : ℚ) * spb) := by
  intro n
  induction n with
  | zero => intro t; rfl
  | succ m ih =>
    intro t
    rw [List.range_succ_eq_map, List.map_cons, List.map_map]
    have h1 : (fun j : ℕ => t + (j : ℚ) * spb) ∘ Nat.succ
        = fun j : ℕ => (t + spb) + (j : ℚ) * spb := by
      funext j
      simp only [Function.comp_apply, Nat.cast_succ]
      ring
    rw [h1, ← ih (t + spb)]
    norm_num [arith]

theorem arith_chain' (spb : ℚ) :
    ∀ (n : ℕ) (t : ℚ), (arith t spb n).Chain' (fun a b => b = a + spb) := by
  intro n
  induction n with
  | zero => intro t; exact List.chain'_nil
  | succ m ih =>
    intro t
    cases m with
    | zero => exact List.chain'_singleton t
    | succ k => exact List.chain'_cons.mpr ⟨rfl, ih (t + spb)⟩

theorem arith_append (spb : ℚ) :
    ∀ (m n : ℕ) (t : ℚ), arith t spb (m + n) = arith t spb m ++ arith (t + m * spb) spb n := by
  intro m
  induction m with
  | zero => intro n t; simp [arith]
  | succ k ih =>
    intro n t
    have h : k + 1 + n = (k + n) + 1 := by omega
    rw [h]
    simp only [arith, List.cons_append]
    rw [ih n (t + spb)]
    have h2 : t + spb + (k : ℚ) * spb = t + ((k : ℕ) + 1 : ℚ) * spb := by ring
    rw [h2]
    push_cast
    ring_nf

theorem tickCount_of_not_lt {deadline spb t : ℚ} (hspb : 0 < spb) (h : ¬ t < deadline) :
    tickCount deadline spb t = 0 := by
  unfold tickCount
  have hnp : (deadline - t) / spb ≤ 0 :=
    div_nonpos_of_nonpos_of_nonneg (by linarith) hspb.le
  have : ⌈(deadline - t) / spb⌉ ≤ 0 := Int.ceil_le.mpr (by exact_mod_cast hnp)
  omega

theorem tickCount_pos {deadline spb t : ℚ} (hspb : 0 < spb) (h : t < deadline) :
    1 ≤ tickCount deadline spb t := by
  unfold tickCount
  have hp : (0 : ℚ) < (deadline - t) / spb := div_pos (by linarith) hspb
  have : (0 : ℤ) < ⌈(deadline - t) / spb⌉ := Int.lt_ceil.mpr (by exact_mod_cast hp)
  omega

theorem tickCount_shift {deadline spb t : ℚ} (hspb : 0 < spb) (h : t < deadline) :
    tickCount deadline spb (t + spb) + 1 = tickCount deadline spb t := by
  have hne : spb ≠ 0 := ne_of_gt hspb
  have hdiv : (deadline - (t + spb)) / spb = (deadline - t) / spb - 1 := by
    rw [show deadline - (t + spb) = deadline - t - spb by ring, sub_div, div_self hne]
  have hceil : ⌈(deadline - (t + spb)) / spb⌉ = ⌈(deadline - t) / spb⌉ - 1 := by
    rw [hdiv, Int.ceil_sub_one]
  have hpos : (0 : ℤ) < ⌈(deadline - t) / spb⌉ := by
    have hp : (0 : ℚ) < (deadline - t) / spb := div_pos (by linarith) hspb
    exact Int.lt_ceil.mpr (by exact_mod_cast hp)
  unfold tickCount
  rw [hceil]
  omega

theorem tickCount_anti {deadline spb t t' : ℚ} (hspb : 0 < spb) (h : t ≤ t') :
    tickCount deadline spb t' ≤ tickCount deadline spb t := by
  unfold tickCount
  have hdiv : (deadline - t') / spb ≤ (deadline - t) / spb := by gcongr
  have hceil : ⌈(deadline - t') / spb⌉ ≤ ⌈(deadline - t) / spb⌉ := Int.ceil_mono hdiv
  omega

theorem tickCount_mono {d d' spb t : ℚ} (hspb : 0 < spb) (h : d ≤ d') :
    tickCount d spb t ≤ tickCount d' spb t := by
  unfold tickCount
  have hdiv : (d - t) / spb ≤ (d' - t) / spb := by gcongr
  have hceil : ⌈(d - t) / spb⌉ ≤ ⌈(d' - t) / spb⌉ := Int.ceil_mono hdiv
  omega

theorem tickCount_add {d1 d2 spb t : ℚ} (hspb : 0 < spb) (hd : d1 ≤ d2) :
    tickCount d1 spb t + tickCount d2 spb (t + (tickCount d1 spb t) * spb)
      = tickCount d2 spb t := by
  by_cases h : t < d1
  · have hne : spb ≠ 0 := ne_of_gt hspb
    have hb : (0 : ℤ) < ⌈(d1 - t) / spb⌉ := by
      have hp : (0 : ℚ) < (d1 - t) / spb := div_pos (by linarith) hspb
      exact Int.lt_ceil.mpr (by exact_mod_cast hp)
    have hba : ⌈(d1 - t) / spb⌉ ≤ ⌈(d2 - t) / spb⌉ := by
      refine Int.ceil_mono ?_
      gcongr
    have hdiv : (d2 - (t + (tickCount d1 spb t : ℚ) * spb)) / spb
        = (d2 - t) / spb - (tickCount d1 spb t : ℚ) := by
      field_simp
      ring
    have hceil : ⌈(d2 - (t + (tickCount d1 spb t : ℚ) * spb)) / spb⌉
        = ⌈(d2 - t) / spb⌉ - (tickCount d1 spb t : ℤ) := by
      rw [hdiv]
      rw [show ((tickCount d1 spb t : ℚ)) = ((tickCount d1 spb t : ℤ) : ℚ) by push_cast; ring]
      exact Int.ceil_sub_int _ _
    unfold tickCount at hceil ⊢
    rw [hceil]
    omega
  · have h0 : tickCount d1 spb t = 0 := tickCount_of_not_lt hspb h
    rw [h0]
    push_cast
    ring_nf

theorem schedLoop_eq {d spb : ℚ} (hspb : 0 < spb) :
    ∀ (fuel : ℕ) (t : ℚ), tickCount d spb t ≤ fuel →
      schedLoop fuel d spb t = (arith t spb (tickCount d spb t),
        t + (tickCount d spb t) * spb) := by
  intro fuel
  induction fuel with
  | zero =>
    intro t hf
    have h0 : tickCount d spb t = 0 := Nat.le_zero.mp hf
    rw [h0]
    simp [schedLoop, arith]
  | succ n ih =>
    intro t hf
    by_cases h : t < d
    · have hshift : tickCount d spb (t + spb) + 1 = tickCount d spb t :=
        tickCount_shift hspb h
      have hle : tickCount d spb (t + spb) ≤ n := by omega
      have hrec := ih (t + spb) hle
      have hct : tickCount d spb t = tickCount d spb (t + spb) + 1 := hshift.symm
      rw [hct]
      simp only [schedLoop, if_pos h, hrec, arith]
      congr 1
      push_cast
      ring
    · have h0 : tickCount d spb t = 0 := tickCount_of_not_lt hspb h
      rw [h0]
      simp [schedLoop, if_neg h, arith]

theorem runSchedulerBody_on {s : MetroState} (hOn : s.isMetronomeOn = true) (hb : 0 < s.bpm)
    (fuel : ℕ) (now : ℚ)
    (hfuel : tickCount (now + scheduleAheadTime) (60 / s.bpm) s.nextTick ≤ fuel) :
    runSchedulerBody fuel now s
      = (arith s.nextTick (60 / s.bpm)
           (tickCount (now + scheduleAheadTime) (60 / s.bpm) s.nextTick),
         { s with
             nextTick := s.nextTick
               + (tickCount (now + scheduleAheadTime) (60 / s.bpm) s.nextTick : ℚ) * (60 / s.bpm),
             armed := true }) := by
  have hspb : 0 < 60 / s.bpm := div_pos (by norm_num) hb
  simp only [runSchedulerBody, hOn, Bool.true_eq_false, if_false,
    schedLoop_eq hspb fuel s.nextTick hfuel]

theorem runTrace_cons (fuel : ℕ) (e : MetroEvent) (es : List MetroEvent) (s : MetroState) :
    runTrace fuel (e :: es) s
      = ((metroStep fuel s e).1 ++ (runTrace fuel es (metroStep fuel s e).2).1,
         (runTrace fuel es (metroStep fuel s e).2).2) := rfl

theorem tickCount_eq_of {d spb t : ℚ} (n : ℕ) (hspb : 0 < spb)
    (h1 : ((n : ℚ) - 1) * spb < d - t) (h2 : d - t ≤ (n : ℚ) * spb) :
    tickCount d spb t = n := by
  unfold tickCount
  have hc : ⌈(d - t) / spb⌉ = (n : ℤ) := by
    rw [Int.ceil_eq_iff]
    constructor
    · push_cast
      rw [lt_div_iff₀ hspb]
      linarith
    · push_cast
      rw [div_le_iff₀ hspb]
      linarith
  rw [hc]
  omega

theorem runTrace_append (fuel : ℕ) :
    ∀ (tr1 tr2 : List MetroEvent) (s : MetroState),
      runTrace fuel (tr1 ++ tr2) s
        = ((runTrace fuel tr1 s).1 ++ (runTrace fuel tr2 (runTrace fuel tr1 s).2).1,
           (runTrace fuel tr2 (runTrace fuel tr1 s).2).2) := by
  intro tr1
  induction tr1 with
  | nil => intro tr2 s; simp [runTrace]
  | cons e es ih =>
    intro tr2 s
    simp only [List.cons_append, runTrace, List.append_eq]
    rw [ih]
    simp [List.append_assoc]

theorem metroStep_wake_on {s : MetroState} (hOn : s.isMetronomeOn = true)
    (ha : s.armed = true) (hb : 0 < s.bpm) (fuel : ℕ) (w : ℚ)
    (hfuel : tickCount (w + scheduleAheadTime) (60 / s.bpm) s.nextTick ≤ fuel) :
    metroStep fuel s (MetroEvent.wake w)
      = (arith s.nextTick (60 / s.bpm)
           (tickCount (w + scheduleAheadTime) (60 / s.bpm) s.nextTick),
         { s with
             nextTick := s.nextTick
               + (tickCount (w + scheduleAheadTime) (60 / s.bpm) s.nextTick : ℚ)
                 * (60 / s.bpm),
             armed := true }) := by
  obtain ⟨o, a, nt, bp⟩ := s
  simp only at hOn ha hfuel hb
  subst hOn
  subst ha
  have hx := runSchedulerBody_on (s := MetroState.mk true false nt bp) rfl hb fuel w hfuel
  simp [metroStep, hx]

/-- Closed form of a run of wake events while the metronome is on: the
emitted clicks form the beat grid from `t0` with step `60/bpm`, whose
length depends only on the *last* wake time (jitter independence). -/
theorem runTrace_wakes {bpm : ℚ} (hb : 0 < bpm) (fuel : ℕ) :
    ∀ (nows : List ℚ) (hne : nows ≠ []) (t0 : ℚ),
      nows.Chain' (· ≤ ·) →
      (∀ w ∈ nows, tickCount (w + scheduleAheadTime) (60 / bpm) t0 ≤ fuel) →
      runTrace fuel (nows.map MetroEvent.wake) (MetroState.mk true true t0 bpm)
        = (arith t0 (60 / bpm)
             (tickCount (nows.getLast hne + scheduleAheadTime) (60 / bpm) t0),
           MetroState.mk true true
             (t0 + (tickCount (nows.getLast hne + scheduleAheadTime) (60 / bpm) t0 : ℚ)
                * (60 / bpm)) bpm) := by
  have hspb : 0 < 60 / bpm := div_pos (by norm_num) hb
  intro nows
  induction nows with
  | nil => intro hne; exact absurd rfl hne
  | cons w rest ih =>
    intro hne t0 hchain hfuel
    have hw : tickCount (w + scheduleAheadTime) (60 / bpm) t0 ≤ fuel :=
      hfuel w (List.mem_cons_self w rest)
    have hstep :
        metroStep fuel (MetroState.mk true true t0 bpm) (MetroEvent.wake w)
          = (arith t0 (60 / bpm) (tickCount (w + scheduleAheadTime) (60 / bpm) t0),
             MetroState.mk true true
               (t0 + (tickCount (w + scheduleAheadTime) (60 / bpm) t0 : ℚ) * (60 / bpm)) bpm) :=
      metroStep_wake_on (s := MetroState.mk true true t0 bpm) rfl rfl hb fuel w hw
    cases rest with
    | nil =>
      have hlast : (w :: ([] : List ℚ)).getLast hne = w := rfl
      rw [List.map_cons, List.map_nil, runTrace_cons, hstep, hlast]
      simp [runTrace]
    | cons w' rest' =>
      have hne' : w' :: rest' ≠ [] := List.cons_ne_nil w' rest'
      have hchain' : (w' :: rest').Chain' (· ≤ ·) := hchain.tail
      have ht0t1 : t0
          ≤ t0 + (tickCount (w + scheduleAheadTime) (60 / bpm) t0 : ℚ) * (60 / bpm) := by
        have h0 : (0 : ℚ)
            ≤ (tickCount (w + scheduleAheadTime) (60 / bpm) t0 : ℚ) * (60 / bpm) := by
          positivity
        linarith
      have hfuel' : ∀ x ∈ w' :: rest',
          tickCount (x + scheduleAheadTime) (60 / bpm)
            (t0 + (tickCount (w + scheduleAheadTime) (60 / bpm) t0 : ℚ) * (60 / bpm))
            ≤ fuel := by
        intro x hx
        exact le_trans (tickCount_anti hspb ht0t1) (hfuel x (List.mem_cons_of_mem w hx))
      have hrec := ih hne'
        (t0 + (tickCount (w + scheduleAheadTime) (60 / bpm) t0 : ℚ) * (60 / bpm))
        hchain' hfuel'
      have hlast : (w :: w' :: rest').getLast hne = (w' :: rest').getLast hne' :=
        List.getLast_cons hne'
      have hwle : w ≤ (w' :: rest').getLast hne' := by
        have hpw : (w :: w' :: rest').Pairwise (· ≤ ·) :=
          List.chain'_iff_pairwise.mp hchain
        exact (List.pairwise_cons.mp hpw).1 _ (List.getLast_mem hne')
      have hdd : w + scheduleAheadTime
          ≤ (w' :: rest').getLast hne' + scheduleAheadTime := by linarith
      have hadd := tickCount_add (t := t0) hspb hdd
      rw [List.map_cons, runTrace_cons, hstep, hrec, hlast, ← hadd]
      simp only [Prod.mk.injEq]
      constructor
      · rw [arith_append]
      · congr 1
        push_cast
        ring

/-- Gap before re-arming, alternating 25 ms and 50 ms (jitter up to twice
the 25 ms poll interval). -/
def jGap (n : ℕ) : ℚ := if n % 2 = 0 then 1 / 40 else 1 / 20

/-- Concrete jittered wake-time trace with gaps `jGap`. -/
def jitterWakes : ℕ → ℚ → List ℚ
  | 0, _ => []
  | n + 1, t => t :: jitterWakes n (t + jGap n)

/-- Audio-clock time of the last wake of `jitterWakes (n+1) t`. -/
def jLast : ℕ → ℚ → ℚ
  | 0, t => t
  | n + 1, t => jLast n (t + jGap (n + 1))

theorem jGap_pos (n : ℕ) : 0 < jGap n := by
  unfold jGap
  split <;> norm_num

theorem jitterWakes_chain' (n : ℕ) : ∀ t : ℚ, (jitterWakes n t).Chain' (· ≤ ·) := by
  induction n with
  | zero => intro t; exact List.chain'_nil
  | succ m ih =>
    intro t
    cases m with
    | zero => exact List.chain'_singleton t
    | succ k =>
      refine List.chain'_cons.mpr ⟨?_, ih (t + jGap (k + 1))⟩
      have := jGap_pos (k + 1)
      linarith

theorem jLast_ge (n : ℕ) : ∀ t : ℚ, t ≤ jLast n t := by
  induction n with
  | zero => intro t; exact le_refl t
  | succ m ih =>
    intro t
    have := jGap_pos (m + 1)
    calc t ≤ t + jGap (m + 1) := by linarith
      _ ≤ jLast m (t + jGap (m + 1)) := ih _
      _ = jLast (m + 1) t := rfl

theorem jitterWakes_getLast (n : ℕ) :
    ∀ (t : ℚ) (h : jitterWakes (n + 1) t ≠ []), (jitterWakes (n + 1) t).getLast h
      = jLast n t := by
  induction n with
  | zero => intro t h; rfl
  | succ m ih =>
    intro t h
    have hne : jitterWakes (m + 1) (t + jGap (m + 1)) ≠ [] := List.cons_ne_nil _ _
    calc (jitterWakes (m + 2) t).getLast h
        = (jitterWakes (m + 1) (t + jGap (m + 1))).getLast hne := List.getLast_cons hne
      _ = jLast m (t + jGap (m + 1)) := ih _ hne
      _ = jLast (m + 1) t := rfl

theorem jitterWakes_mem_le (n : ℕ) :
    ∀ (t : ℚ) (w : ℚ), w ∈ jitterWakes (n + 1) t → w ≤ jLast n t := by
  induction n with
  | zero =>
    intro t w hw
    have : w = t := by
      cases hw with
      | head => rfl
      | tail _ h => cases h
    rw [this]
    exact le_refl t
  | succ m ih =>
    intro t w hw
    cases hw with
    | head =>
      calc t ≤ t + jGap (m + 1) := by have := jGap_pos (m + 1); linarith
        _ ≤ jLast m (t + jGap (m + 1)) := jLast_ge m _
        _ = jLast (m + 1) t := rfl
    | tail _ h => exact ih (t + jGap (m + 1)) w h

theorem jLast_two_step (m : ℕ) (t : ℚ) : jLast (m + 2) t = jLast m (t + 3 / 40) := by
  have hgap : jGap (m + 2) + jGap (m + 1) = 3 / 40 := by
    unfold jGap
    rcases Nat.even_or_odd m with h | h
    · obtain ⟨k, rfl⟩ := h
      have h1 : (k + k + 2) % 2 = 0 := by omega
      have h2 : (k + k + 1) % 2 = 1 := by omega
      rw [if_pos h1, if_neg (by omega)]
      norm_num
    · obtain ⟨k, rfl⟩ := h
      have h1 : (2 * k + 1 + 2) % 2 = 1 := by omega
      have h2 : (2 * k + 1 + 1) % 2 = 0 := by omega
      rw [if_neg (by omega), if_pos h2]
      norm_num
  show jLast (m + 1) (t + jGap (m + 2)) = jLast m (t + 3 / 40)
  show jLast m (t + jGap (m + 2) + jGap (m + 1)) = jLast m (t + 3 / 40)
  rw [show t + jGap (m + 2) + jGap (m + 1) = t + (jGap (m + 2) + jGap (m + 1)) by ring, hgap]

theorem jLast_double (k : ℕ) : ∀ t : ℚ, jLast (2 * k) t = t + (k : ℚ) * (3 / 40) := by
  induction k with
  | zero => intro t; simp [jLast]
  | succ m ih =>
    intro t
    have h : 2 * (m + 1) = 2 * m + 2 := by omega
    rw [h, jLast_two_step, ih (t + 3 / 40)]
    push_cast
    ring

/-- Claim C1: on each wake the scheduler emits one click at exactly
`nextTick` for every tick inside the rolling lookahead window, advancing
`nextTick` by exactly `60/bpm` each time; consequently, over any
monotone sequence of wake times, the scheduled click times are exactly
the beat grid `t0 + j·(60/bpm)`, consecutive clicks are spaced exactly
`60/bpm` apart, and the number of clicks depends only on the final wake
time — not on the jitter of the intermediate wakes. -/
theorem metronome_schedule (bpm t0 : ℚ) (hb : 0 < bpm) (fuel : ℕ) (nows : List ℚ)
    (hne : nows ≠ []) (hchain : nows.Chain' (· ≤ ·))
    (hfuel : ∀ w ∈ nows, tickCount (w + scheduleAheadTime) (60 / bpm) t0 ≤ fuel) :
    (runTrace fuel (nows.map MetroEvent.wake) (MetroState.mk true true t0 bpm)).1
        = (List.range (tickCount (nows.getLast hne + scheduleAheadTime) (60 / bpm) t0)).map
            (fun j : ℕ => t0 + (j : ℚ) * (60 / bpm))
    ∧ (runTrace fuel (nows.map MetroEvent.wake) (MetroState.mk true true t0 bpm)).1.Chain'
        (fun a b => b = a + 60 / bpm)
    ∧ (runTrace fuel (nows.map MetroEvent.wake) (MetroState.mk true true t0 bpm)).2
        = MetroState.mk true true
            (t0 + (tickCount (nows.getLast hne + scheduleAheadTime) (60 / bpm) t0 : ℚ)
               * (60 / bpm)) bpm := by
  have h := runTrace_wakes hb fuel nows hne t0 hchain hfuel
  refine ⟨?_, ?_, ?_⟩
  · rw [h]
    exact arith_eq_map_range (60 / bpm) _ t0
  · rw [h]
    exact arith_chain' (60 / bpm) _ t0
  · rw [h]

/-- Witness for C1: tempo 120 bpm, metronome started at audio time 0
(so the grid starts at 0.05 s), 265 wakes whose gaps alternate between
25 ms and 50 ms reaching 9.9 s.  Exactly 20 clicks are scheduled in the
10-second window, 0.5 s apart. -/
theorem metronome_schedule_witness :
    (0 : ℚ) < 120
    ∧ (jitterWakes 265 0).Chain' (· ≤ ·)
    ∧ (∀ w ∈ jitterWakes 265 0, tickCount (w + scheduleAheadTime) (60 / 120) (1 / 20) ≤ 25)
    ∧ (runTrace 25 ((jitterWakes 265 0).map MetroEvent.wake)
        (MetroState.mk true true (1 / 20) 120)).1.length = 20
    ∧ (runTrace 25 ((jitterWakes 265 0).map MetroEvent.wake)
        (MetroState.mk true true (1 / 20) 120)).1.Chain' (fun a b => b = a + 60 / 120) := by
  have hne : jitterWakes 265 0 ≠ [] := List.cons_ne_nil _ _
  have hlastval : jLast 264 0 = 99 / 10 := by
    rw [show (264 : ℕ) = 2 * 132 by norm_num, jLast_double]
    norm_num
  have hlast : (jitterWakes 265 0).getLast hne = 99 / 10 := by
    rw [jitterWakes_getLast 264 0 hne, hlastval]
  have hchain := jitterWakes_chain' 265 0
  have hcount : tickCount (99 / 10 + scheduleAheadTime) (60 / 120) (1 / 20) = 20 :=
    tickCount_eq_of 20 (by norm_num) (by norm_num [scheduleAheadTime])
      (by norm_num [scheduleAheadTime])
  have hfuel : ∀ w ∈ jitterWakes 265 0,
      tickCount (w + scheduleAheadTime) (60 / 120) (1 / 20) ≤ 25 := by
    intro w hw
    have h1 : w ≤ jLast 264 0 := jitterWakes_mem_le 264 0 w hw
    rw [hlastval] at h1
    have hmono : tickCount (w + scheduleAheadTime) (60 / 120) (1 / 20)
        ≤ tickCount (99 / 10 + scheduleAheadTime) (60 / 120) (1 / 20) :=
      tickCount_mono (by norm_num) (by linarith)
    rw [hcount] at hmono
    omega
  have h := metronome_schedule 120 (1 / 20) (by norm_num) 25 (jitterWakes 265 0) hne
    hchain hfuel
  refine ⟨by norm_num, hchain, hfuel, ?_, h.2.1⟩
  rw [h.1, List.length_map, List.length_range, hlast, hcount]

def MetroEvent.isWake : MetroEvent → Bool
  | .wake _ => true
  | _ => false

theorem metroStep_wake_off {s : MetroState} (hOff : s.isMetronomeOn = false) (fuel : ℕ)
    (w : ℚ) : metroStep fuel s (MetroEvent.wake w) = ([], { s with armed := false }) := by
  obtain ⟨o, a, nt, bp⟩ := s
  simp only [metroStep]
  by_cases ha : a = true
  · subst ha
    simp only [if_pos rfl, runSchedulerBody]
    simp only at hOff
    simp [hOff]
  · have ha' : a = false := by
      cases a
      · rfl
      · exact absurd rfl ha
    subst ha'
    simp [metroStep]

theorem runTrace_wakes_off (fuel : ℕ) :
    ∀ (post : List MetroEvent) (s : MetroState),
      s.isMetronomeOn = false → (∀ e ∈ post, e.isWake = true) →
      (runTrace fuel post s).1 = []
      ∧ (runTrace fuel post s).2.isMetronomeOn = false
      ∧ (post ≠ [] → (runTrace fuel post s).2.armed = false) := by
  intro post
  induction post with
  | nil =>
    intro s hOff _
    exact ⟨rfl, hOff, fun h => absurd rfl h⟩
  | cons e es ih =>
    intro s hOff hpost
    have he : e.isWake = true := hpost e (List.mem_cons_self e es)
    obtain ⟨w, rfl⟩ : ∃ w, e = MetroEvent.wake w := by
      cases e with
      | wake w => exact ⟨w, rfl⟩
      | toggle _ => exact absurd he (by simp [MetroEvent.isWake])
      | setTempo _ => exact absurd he (by simp [MetroEvent.isWake])
    have hstep := metroStep_wake_off hOff fuel w
    have hOff' : (MetroState.mk s.isMetronomeOn false s.nextTick s.bpm).isMetronomeOn
        = false := hOff
    have ihs := ih { s with armed := false } hOff'
      (fun e' he' => hpost e' (List.mem_cons_of_mem _ he'))
    simp only [runTrace, hstep]
    refine ⟨by simp [ihs.1], ihs.2.1, fun _ => ?_⟩
    cases es with
    | nil => rfl
    | cons e' es' => exact ihs.2.2 (List.cons_ne_nil e' es')

/-- Claim C7: once the metronome button switches the running metronome
off, the still-pending wake returns without scheduling and without
re-arming, so no further click is ever scheduled; the click times
scheduled before the stop are left exactly as they were (nothing is
cancelled). -/
theorem metronome_stop_no_rearm (fuel : ℕ) (pre post : List MetroEvent) (s0 : MetroState)
    (tstop : ℚ)
    (hrun : (runTrace fuel pre s0).2.isMetronomeOn = true)
    (hpost : ∀ e ∈ post, e.isWake = true) :
    (runTrace fuel (pre ++ MetroEvent.toggle tstop :: post) s0).1 = (runTrace fuel pre s0).1
    ∧ (runTrace fuel (pre ++ MetroEvent.toggle tstop :: post) s0).2.isMetronomeOn = false
    ∧ (post ≠ [] →
        (runTrace fuel (pre ++ MetroEvent.toggle tstop :: post) s0).2.armed = false) := by
  set s1 := (runTrace fuel pre s0).2 with hs1
  have hstep : metroStep fuel s1 (MetroEvent.toggle tstop)
      = ([], { s1 with isMetronomeOn := false }) := by
    simp only [metroStep, hrun, Bool.true_eq_false, if_false]
  have hOff : ({ s1 with isMetronomeOn := false } : MetroState).isMetronomeOn = false := rfl
  have hoff := runTrace_wakes_off fuel post { s1 with isMetronomeOn := false } hOff hpost
  have happ := runTrace_append fuel pre (MetroEvent.toggle tstop :: post) s0
  rw [happ]
  simp only [runTrace, hstep, ← hs1]
  refine ⟨by simp [hoff.1], hoff.2.1, fun h => hoff.2.2 h⟩

/-- Witness for C7: start the metronome at time 0 (one click scheduled at
0.05 s), stop it at 0.01 s; the pending wake at 0.03 s schedules nothing
and does not re-arm, and the click at 0.05 s is untouched. -/
theorem metronome_stop_witness :
    (runTrace 5 ([MetroEvent.toggle 0] ++ MetroEvent.toggle (1 / 100)
        :: [MetroEvent.wake (3 / 100)]) (MetroState.mk false false 0 120)).1
      = (runTrace 5 [MetroEvent.toggle 0] (MetroState.mk false false 0 120)).1
    ∧ (runTrace 5 ([MetroEvent.toggle 0] ++ MetroEvent.toggle (1 / 100)
        :: [MetroEvent.wake (3 / 100)]) (MetroState.mk false false 0 120)).2.isMetronomeOn
      = false
    ∧ (runTrace 5 ([MetroEvent.toggle 0] ++ MetroEvent.toggle (1 / 100)
        :: [MetroEvent.wake (3 / 100)]) (MetroState.mk false false 0 120)).2.armed = false := by
  have h := metronome_stop_no_rearm 5 [MetroEvent.toggle 0] [MetroEvent.wake (3 / 100)]
    (MetroState.mk false false 0 120) (1 / 100) (by decide) (by decide)
  exact ⟨h.1, h.2.1, h.2.2 (by decide)⟩

/-- Claim C6: (i) click times already scheduled are never altered by any
later event — in particular not by a tempo change; (ii) the tempo
slider handler only writes `state.bpm`, scheduling nothing and leaving
`nextTick` (the next beat boundary) unchanged; (iii) the first wake after
a tempo change emits its first click at the inherited `nextTick` and
spaces subsequent ticks by the new `60/bpm`. -/
theorem tempo_change_next_boundary :
    (∀ (fuel : ℕ) (tr1 tr2 : List MetroEvent) (s : MetroState),
        (runTrace fuel (tr1 ++ tr2) s).1
          = (runTrace fuel tr1 s).1 ++ (runTrace fuel tr2 (runTrace fuel tr1 s).2).1)
    ∧ (∀ (fuel : ℕ) (b : ℚ) (s : MetroState),
        metroStep fuel s (MetroEvent.setTempo b) = ([], { s with bpm := b }))
    ∧ (∀ (fuel : ℕ) (b now : ℚ) (s : MetroState),
        s.isMetronomeOn = true → s.armed = true → 0 < b →
        tickCount (now + scheduleAheadTime) (60 / b) s.nextTick ≤ fuel →
        (runTrace fuel [MetroEvent.setTempo b, MetroEvent.wake now] s).1
          = (List.range (tickCount (now + scheduleAheadTime) (60 / b) s.nextTick)).map
              (fun j : ℕ => s.nextTick + (j : ℚ) * (60 / b))) := by
  refine ⟨?_, ?_, ?_⟩
  · intro fuel tr1 tr2 s
    rw [runTrace_append]
  · intro fuel b s
    rfl
  · intro fuel b now s hOn ha hb hfuel
    obtain ⟨o, a, nt, bp⟩ := s
    simp only at hOn ha hfuel
    subst hOn
    subst ha
    have hbody := runSchedulerBody_on (s := MetroState.mk true false nt b) rfl hb fuel now hfuel
    simp only [runTrace, metroStep, if_pos rfl, hbody, List.append_nil, List.nil_append]
    exact arith_eq_map_range (60 / b) _ nt

/-- Witness for C6: with the metronome running (next tick at 0.5 s,
tempo 120), change the tempo to 60 bpm; nothing is scheduled by the
change itself, and the next wake (at 1 s) emits the click at the
inherited 0.5 s boundary with the new 1 s spacing. -/
theorem tempo_change_witness :
    metroStep 5 (MetroState.mk true true (1 / 2) 120) (MetroEvent.setTempo 60)
      = ([], MetroState.mk true true (1 / 2) 60)
    ∧ (runTrace 5 [MetroEvent.setTempo 60, MetroEvent.wake 1]
        (MetroState.mk true true (1 / 2) 120)).1
      = (List.range (tickCount (1 + scheduleAheadTime) (60 / 60) (1 / 2))).map
          (fun j : ℕ => (1 / 2 : ℚ) + (j : ℚ) * (60 / 60)) := by
  exact ⟨tempo_change_next_boundary.2.1 5 60 (MetroState.mk true true (1 / 2) 120),
    tempo_change_next_boundary.2.2 5 60 1 (MetroState.mk true true (1 / 2) 120)
      rfl rfl (by norm_num)
      (by
        show tickCount (1 + scheduleAheadTime) (60 / 60) (1 / 2) ≤ 5
        rw [tickCount_eq_of 1 (by norm_num) (by norm_num [scheduleAheadTime])
          (by norm_num [scheduleAheadTime])]
        norm_num)⟩

/-! ## Pad triggering (src/app.js lines 214-232)

`playPad(id, velocity)` returns immediately when `state.ctx` is null.
Otherwise it evaluates `const kit = state.buffers[state.kit]` — which is
`undefined` until the `await synthKit(...)` calls in `initAudio` finish, since
`state.ctx` is assigned *before* those awaits — and then reads `kit[id]`:
a property read on `undefined` throws a `TypeError`.  When the kit map
exists but lacks the buffer, `if (!buf) return` makes the call a no-op;
otherwise a source node is started at `currentTime + latencyMs/1000`.
The per-pad gain nodes are created synchronously with the context, so
only the buffer table can be missing in a reachable state. -/

inductive JsError
  | typeError
  deriving DecidableEq

inductive PlayOutcome
  | noop
  | played (id : String) (startAt : ℚ) (velocity : ℚ)
  deriving DecidableEq

structure PadAppState where
  ctxReady : Bool
  buffers : String → Option (String → Option ℕ)
  kit : String

def playPad (s : PadAppState) (now latencyMs : ℚ) (id : String) (velocity : ℚ) :
    Except JsError PlayOutcome :=
  if s.ctxReady = false then .ok .noop
  else
    match s.buffers s.kit with
    | none => .error .typeError
    | some kitMap =>
      match kitMap id with
      | none => .ok .noop
      | some _ => .ok (.played id (now + latencyMs / 1000) velocity)

/-- Claim C2 (code bug): before the audio context exists the trigger is a
silent no-op, and a missing single buffer is a silent no-op; but in the
reachable window where the context exists and `state.buffers` is still
the empty object (kit synthesis not finished), `playPad` evaluates
`kit[id]` on `undefined` and throws a `TypeError`, contradicting the
claim that the call never throws. -/
theorem playPad_unready_kit_throws :
    playPad (PadAppState.mk true (fun _ => none) ("rock")) 0 0 ("kick") (9 / 10)
      = Except.error JsError.typeError
    ∧ (∀ (buffers : String → Option (String → Option ℕ)) (kit id : String)
          (now latencyMs velocity : ℚ),
        playPad (PadAppState.mk false buffers kit) now latencyMs id velocity
          = Except.ok PlayOutcome.noop)
    ∧ playPad (PadAppState.mk true (fun _ => some (fun _ => none)) ("rock")) 0 0
        ("kick") (9 / 10) = Except.ok PlayOutcome.noop := by
  exact ⟨rfl, fun _ _ _ _ _ _ => rfl, rfl⟩

/-! ## Soft-clip curve (src/app.js lines 92-99)

`makeSoftClipCurve(amount = 0.9)` builds a 1024-point table with
`x = (i/(n-1))*2 - 1` and `curve[i] = tanh(amount*2*x)/tanh(amount*2)`. -/

noncomputable def makeSoftClipCurve (amount : ℝ) (i : Fin 1024) : ℝ :=
  Real.tanh (amount * 2 * (((i : ℕ) : ℝ) / (1024 - 1) * 2 - 1))
    / Real.tanh (amount * 2)

/-- The sample position `x` of table index `i`. -/
def softClipX (i : Fin 1024) : ℚ := ((i : ℕ) : ℚ) / (1024 - 1) * 2 - 1

theorem tanh_mono_of_le {x y : ℝ} (h : x ≤ y) : Real.tanh x ≤ Real.tanh y := by
  rw [Real.tanh_eq_sinh_div_cosh, Real.tanh_eq_sinh_div_cosh,
    div_le_div_iff₀ (Real.cosh_pos x) (Real.cosh_pos y)]
  have hs : Real.sinh (x - y) ≤ 0 := Real.sinh_nonpos_iff.mpr (by linarith)
  rw [Real.sinh_sub] at hs
  nlinarith [Real.cosh_pos x, Real.cosh_pos y]

theorem tanh_pos_of_pos {x : ℝ} (hx : 0 < x) : 0 < Real.tanh x := by
  rw [Real.tanh_eq_sinh_div_cosh]
  exact div_pos (Real.sinh_pos_iff.mpr hx) (Real.cosh_pos x)

theorem tanh_lt_one' (x : ℝ) : Real.tanh x < 1 := by
  rw [Real.tanh_eq_sinh_div_cosh, div_lt_one (Real.cosh_pos x)]
  exact Real.sinh_lt_cosh x

/-- `curve[i] = tanh((9/5)·x_i)/tanh(9/5)` with the argument computed
explicitly (the table has 1024 points, `x_i = i/1023·2 - 1`). -/
theorem makeSoftClipCurve_arg (a : ℝ) (i : Fin 1024) :
    makeSoftClipCurve a i
      = Real.tanh (a * 2 * (((i : ℕ) : ℝ) / 1023 * 2 - 1)) / Real.tanh (a * 2) := by
  unfold makeSoftClipCurve
  norm_num

/-- Upper bound `tanh(9/5115) ≤ 9/5100`, from `tanh y ≤ sinh y` and the
elementary exponential bounds `1 - y ≤ exp (-y)`, `exp y ≤ 1/(1-y)`. -/
theorem tanh_small_upper : Real.tanh (9 / 5115) ≤ 9 / 5100 := by
  have hexp : (0 : ℝ) < Real.exp (9 / 5115) := Real.exp_pos _
  have hlow : (1 : ℝ) - 9 / 5115 ≤ Real.exp (-(9 / 5115)) := by
    have := Real.add_one_le_exp (-(9 / 5115 : ℝ))
    linarith
  have hup : Real.exp (9 / 5115) ≤ 5115 / 5106 := by
    rw [Real.exp_neg] at hlow
    have hpos : (0 : ℝ) < 1 - 9 / 5115 := by norm_num
    have hmul : Real.exp (9 / 5115) * (1 - 9 / 5115) ≤ 1 := by
      calc Real.exp (9 / 5115) * (1 - 9 / 5115)
          ≤ Real.exp (9 / 5115) * (Real.exp (9 / 5115))⁻¹ :=
            mul_le_mul_of_nonneg_left hlow (le_of_lt hexp)
        _ = 1 := mul_inv_cancel₀ (ne_of_gt hexp)
    nlinarith
  have hsinh : Real.sinh (9 / 5115) ≤ 9 / 5100 := by
    rw [Real.sinh_eq]
    have h1 : (1 : ℝ) - 9 / 5115 = 5106 / 5115 := by norm_num
    rw [h1] at hlow
    have : Real.exp (9 / 5115) - Real.exp (-(9 / 5115)) ≤ 5115 / 5106 - 5106 / 5115 := by
      linarith
    calc (Real.exp (9 / 5115) - Real.exp (-(9 / 5115))) / 2
        ≤ (5115 / 5106 - 5106 / 5115) / 2 := by linarith
      _ ≤ 9 / 5100 := by norm_num
  calc Real.tanh (9 / 5115)
      ≤ Real.sinh (9 / 5115) := by
        rw [Real.tanh_eq_sinh_div_cosh]
        exact div_le_self (Real.sinh_pos_iff.mpr (by norm_num)).le (Real.one_le_cosh _)
    _ ≤ 9 / 5100 := hsinh

/-- Lower bound `9/10 ≤ tanh(9/5)`, via `exp(9/5) ≥ (1 + 9/80)^16 ≥ 11/2`. -/
theorem tanh_nine_fifths_lower : (9 / 10 : ℝ) ≤ Real.tanh (9 / 5) := by
  have hE : (11 / 2 : ℝ) ≤ Real.exp (9 / 5) := by
    have h16 : ((89 / 80 : ℝ)) ^ (16 : ℕ) ≤ Real.exp (9 / 5) := by
      rw [show (9 / 5 : ℝ) = ((16 : ℕ) : ℝ) * (9 / 80) by norm_num, Real.exp_nat_mul]
      refine pow_le_pow_left₀ (by norm_num) ?_ 16
      have := Real.add_one_le_exp (9 / 80 : ℝ)
      linarith
    calc (11 / 2 : ℝ) ≤ (89 / 80 : ℝ) ^ (16 : ℕ) := by norm_num
      _ ≤ Real.exp (9 / 5) := h16
  have hexp : (0 : ℝ) < Real.exp (9 / 5) := Real.exp_pos _
  have hEinv : Real.exp (-(9 / 5)) ≤ 2 / 11 := by
    rw [Real.exp_neg]
    have h1 : (0 : ℝ) < 11 / 2 := by norm_num
    calc (Real.exp (9 / 5))⁻¹ ≤ (11 / 2 : ℝ)⁻¹ := by gcongr
      _ = 2 / 11 := by norm_num
  rw [Real.tanh_eq_sinh_div_cosh, Real.sinh_eq, Real.cosh_eq]
  have hcoshpos : (0 : ℝ) < (Real.exp (9 / 5) + Real.exp (-(9 / 5))) / 2 := by
    have := Real.exp_pos (-(9 / 5) : ℝ)
    linarith
  rw [le_div_iff₀ hcoshpos]
  have hh : (0 : ℝ) < Real.exp (-(9 / 5)) := Real.exp_pos _
  nlinarith

/-- Claim C5 counterexample: the 1024-point table samples
`x_i = i/1023·2 - 1`, so *no* index has `x_i = 0`; the entry nearest to
zero (index 511, `x = -1/1023`) has magnitude greater than `1/1000` —
far outside floating-point tolerance of zero. -/
theorem softClip_no_zero_sample :
    (∀ i : Fin 1024, softClipX i ≠ 0)
    ∧ (1 / 1000 : ℝ) < |makeSoftClipCurve (9 / 10) ⟨511, by norm_num⟩| := by
  constructor
  · intro i h
    unfold softClipX at h
    have h2 : ((i : ℕ) : ℚ) * 2 = 1023 := by
      field_simp at h
      linarith
    have h3 : (i : ℕ) * 2 = 1023 := by exact_mod_cast h2
    omega
  · have harg : (9 / 10 : ℝ) * 2 * ((((511 : ℕ)) : ℝ) / 1023 * 2 - 1) = -(9 / 5115) := by
      norm_num
    have hcurve : makeSoftClipCurve (9 / 10) ⟨511, by norm_num⟩
        = -(Real.tanh (9 / 5115) / Real.tanh (9 / 5)) := by
      rw [makeSoftClipCurve_arg]
      show Real.tanh ((9 / 10) * 2 * (((511 : ℕ) : ℝ) / 1023 * 2 - 1))
          / Real.tanh ((9 / 10) * 2) = _
      rw [harg, show (9 / 10 : ℝ) * 2 = 9 / 5 by norm_num, Real.tanh_neg, neg_div]
    have hta : 0 < Real.tanh (9 / 5115) := tanh_pos_of_pos (by norm_num)
    have htb : 0 < Real.tanh (9 / 5) := tanh_pos_of_pos (by norm_num)
    have htblt : Real.tanh (9 / 5) < 1 := tanh_lt_one' _
    have hlow : (1 / 1000 : ℝ) < Real.tanh (9 / 5115) := by
      have hcosh : Real.cosh (9 / 5115) ≤ 1001 / 1000 := by
        rw [Real.cosh_eq]
        have hexp : (0 : ℝ) < Real.exp (9 / 5115) := Real.exp_pos _
        have hlow2 : (1 : ℝ) - 9 / 5115 ≤ Real.exp (-(9 / 5115)) := by
          have := Real.add_one_le_exp (-(9 / 5115 : ℝ))
          linarith
        have hup : Real.exp (9 / 5115) ≤ 5115 / 5106 := by
          rw [Real.exp_neg] at hlow2
          have hpos : (0 : ℝ) < 1 - 9 / 5115 := by norm_num
          have hmul : Real.exp (9 / 5115) * (1 - 9 / 5115) ≤ 1 := by
            calc Real.exp (9 / 5115) * (1 - 9 / 5115)
                ≤ Real.exp (9 / 5115) * (Real.exp (9 / 5115))⁻¹ :=
                  mul_le_mul_of_nonneg_left hlow2 (le_of_lt hexp)
              _ = 1 := mul_inv_cancel₀ (ne_of_gt hexp)
          nlinarith
        have hone : Real.exp (-(9 / 5115)) ≤ 1 := Real.exp_le_one_iff.mpr (by norm_num)
        linarith
      have hself : (9 / 5115 : ℝ) / Real.cosh (9 / 5115) ≤ Real.tanh (9 / 5115) := by
        rw [Real.tanh_eq_sinh_div_cosh]
        gcongr
        exact (Real.self_lt_sinh_iff.mpr (by norm_num)).le
      have hq : (1 / 1000 : ℝ) < (9 / 5115) / (1001 / 1000) := by norm_num
      have hq2 : (9 / 5115 : ℝ) / (1001 / 1000) ≤ (9 / 5115) / Real.cosh (9 / 5115) := by
        gcongr
      linarith
    have hgrow : Real.tanh (9 / 5115) ≤ Real.tanh (9 / 5115) / Real.tanh (9 / 5) := by
      rw [le_div_iff₀ htb]
      nlinarith
    rw [hcurve, abs_neg, abs_of_pos (div_pos hta htb)]
    linarith

/-- Claim C5 amended: the table is monotone non-decreasing, its last
entry (`x = 1`) is exactly 1 and its first (`x = -1`) exactly -1; it has
no sample at `x = 0` — the two middle entries (indices 511 and 512, at
`x = ∓1/1023`) are exact negatives of each other, of magnitude between
1/1000 and 1/500 (≈ 0.0019), so the linearly interpolated curve passes
through 0 exactly at `x = 0` even though no table value there is 0. -/
theorem softClip_table_props :
    (∀ i j : Fin 1024, i ≤ j → makeSoftClipCurve (9 / 10) i ≤ makeSoftClipCurve (9 / 10) j)
    ∧ makeSoftClipCurve (9 / 10) ⟨1023, by norm_num⟩ = 1
    ∧ makeSoftClipCurve (9 / 10) ⟨0, by norm_num⟩ = -1
    ∧ makeSoftClipCurve (9 / 10) ⟨511, by norm_num⟩
        + makeSoftClipCurve (9 / 10) ⟨512, by norm_num⟩ = 0
    ∧ makeSoftClipCurve (9 / 10) ⟨511, by norm_num⟩ < 0
    ∧ |makeSoftClipCurve (9 / 10) ⟨511, by norm_num⟩| < 1 / 500 := by
  have hb : 0 < Real.tanh (9 / 5) := tanh_pos_of_pos (by norm_num)
  have harg : ∀ i : Fin 1024, makeSoftClipCurve (9 / 10) i
      = Real.tanh ((9 / 10) * 2 * (((i : ℕ) : ℝ) / 1023 * 2 - 1)) / Real.tanh (9 / 5) := by
    intro i
    rw [makeSoftClipCurve_arg]
    norm_num
  refine ⟨?_, ?_, ?_, ?_, ?_, ?_⟩
  · intro i j hij
    rw [harg i, harg j]
    have hcast : ((i : ℕ) : ℝ) ≤ ((j : ℕ) : ℝ) := by
      exact_mod_cast (Fin.le_def.mp hij)
    gcongr
    exact tanh_mono_of_le (by nlinarith)
  · rw [harg]
    rw [show (9 / 10 : ℝ) * 2 * ((((1023 : ℕ)) : ℝ) / 1023 * 2 - 1) = 9 / 5 by norm_num]
    exact div_self (ne_of_gt hb)
  · rw [harg]
    rw [show (9 / 10 : ℝ) * 2 * ((((0 : ℕ)) : ℝ) / 1023 * 2 - 1) = -(9 / 5) by norm_num,
      Real.tanh_neg, neg_div]
    rw [div_self (ne_of_gt hb)]
  · rw [harg, harg]
    rw [show (9 / 10 : ℝ) * 2 * ((((511 : ℕ)) : ℝ) / 1023 * 2 - 1) = -(9 / 5115) by norm_num,
      show (9 / 10 : ℝ) * 2 * ((((512 : ℕ)) : ℝ) / 1023 * 2 - 1) = 9 / 5115 by norm_num,
      Real.tanh_neg, neg_div]
    ring
  · rw [harg]
    rw [show (9 / 10 : ℝ) * 2 * ((((511 : ℕ)) : ℝ) / 1023 * 2 - 1) = -(9 / 5115) by norm_num,
      Real.tanh_neg, neg_div]
    have hta : 0 < Real.tanh (9 / 5115) := tanh_pos_of_pos (by norm_num)
    have := div_pos hta hb
    linarith
  · rw [harg]
    rw [show (9 / 10 : ℝ) * 2 * ((((511 : ℕ)) : ℝ) / 1023 * 2 - 1) = -(9 / 5115) by norm_num,
      Real.tanh_neg, neg_div, abs_neg]
    have hta : 0 < Real.tanh (9 / 5115) := tanh_pos_of_pos (by norm_num)
    rw [abs_of_pos (div_pos hta hb)]
    calc Real.tanh (9 / 5115) / Real.tanh (9 / 5)
        ≤ (9 / 5100) / (9 / 10) :=
          div_le_div₀ (by norm_num) tanh_small_upper (by norm_num) tanh_nine_fifths_lower
      _ < 1 / 500 := by norm_num

/-- Witness for the monotonicity part of the soft-clip table theorem. -/
theorem softClip_table_props_witness :
    makeSoftClipCurve (9 / 10) ⟨0, by norm_num⟩
      ≤ makeSoftClipCurve (9 / 10) ⟨1, by norm_num⟩ :=
  softClip_table_props.1 ⟨0, by norm_num⟩ ⟨1, by norm_num⟩ (by norm_num [Fin.le_def])

/-! ## Hi-hat choke (src/app.js lines 101-106, 234-241)

`chokeHiHat()` runs on every `hatC`/`hatP` trigger: it calls
`gOpen.gain.cancelScheduledValues(t)` (dropping every automation event at
or after `t`), schedules `setTargetAtTime(0.0001, t, 0.01)` — an
exponential approach to target 0.0001 with a **10 ms time constant** —
and, from a 30 ms `setTimeout`, `setTargetAtTime(defaultPadGain("hatO"),
currentTime, 0.05)`.  The wall-clock fire time of that timeout is the
parameter `tRestore` (nominally `t + 0.03`).  `timelineValue` is the Web
Audio automation semantics for a chain of set-target events: the curve of
each event starts, at its start time, from the value of the prior curve. -/

structure AutomEvent where
  target : ℚ
  start : ℚ
  timeConst : ℚ
  deriving DecidableEq

def defaultPadGain (id : String) : ℚ :=
  if id = "kick" then 9 / 10
  else if id = "snare" then 85 / 100
  else if id = "hatC" then 6 / 10
  else if id = "hatO" then 6 / 10
  else if id = "hatP" then 5 / 10
  else if id = "tom1" then 8 / 10
  else if id = "tom2" then 8 / 10
  else if id = "tom3" then 8 / 10
  else if id = "crash" then 65 / 100
  else if id = "ride" then 65 / 100
  else 7 / 10

def cancelScheduledValues (events : List AutomEvent) (t : ℚ) : List AutomEvent :=
  events.filter (fun e => e.start < t)

def chokeHiHat (events : List AutomEvent) (t tRestore : ℚ) : List AutomEvent :=
  cancelScheduledValues events t
    ++ [AutomEvent.mk (1 / 10000) t (1 / 100),
        AutomEvent.mk (defaultPadGain ("hatO")) tRestore (1 / 20)]

noncomputable def timelineValue (prev : ℝ → ℝ) : List AutomEvent → ℝ → ℝ
  | [], x => prev x
  | e :: rest, x =>
    if x < (e.start : ℝ) then prev x
    else
      timelineValue
        (fun y => (e.target : ℝ)
          + (prev (e.start : ℝ) - (e.target : ℝ))
            * Real.exp (-(y - (e.start : ℝ)) / (e.timeConst : ℝ)))
        rest x

noncomputable def gainValue (v0 : ℝ) (events : List AutomEvent) (x : ℝ) : ℝ :=
  timelineValue (fun _ => v0) events x

theorem gainValue_two_first (g1 t1 tc1 g2 t2 tc2 : ℚ) (v0 x : ℝ)
    (h1 : (t1 : ℝ) ≤ x) (h2 : x < (t2 : ℝ)) :
    gainValue v0 [AutomEvent.mk g1 t1 tc1, AutomEvent.mk g2 t2 tc2] x
      = (g1 : ℝ) + (v0 - (g1 : ℝ)) * Real.exp (-(x - (t1 : ℝ)) / (tc1 : ℝ)) := by
  unfold gainValue
  simp only [timelineValue]
  rw [if_neg (by linarith), if_pos h2]

theorem gainValue_two_second (g1 t1 tc1 g2 t2 tc2 : ℚ) (v0 x : ℝ)
    (h1 : (t1 : ℝ) ≤ (t2 : ℝ)) (h2 : (t2 : ℝ) ≤ x) :
    gainValue v0 [AutomEvent.mk g1 t1 tc1, AutomEvent.mk g2 t2 tc2] x
      = (g2 : ℝ)
        + (((g1 : ℝ) + (v0 - (g1 : ℝ)) * Real.exp (-((t2 : ℝ) - (t1 : ℝ)) / (tc1 : ℝ)))
            - (g2 : ℝ)) * Real.exp (-(x - (t2 : ℝ)) / (tc2 : ℝ)) := by
  unfold gainValue
  simp only [timelineValue]
  rw [if_neg (by linarith), if_neg (by linarith)]

/-- Claim C3 counterexample: choke the open hat (initial gain 0.6, its
default) at time 0, with the restore timer firing at 30 ms.  Ten
milliseconds after the trigger the scheduled gain is still above 1/5
(`0.0001 + 0.5999·e⁻¹ ≈ 0.22`), nowhere near below 0.001; and 50 ms
after the trigger the gain is still below 2/5, not yet restored to the
default 0.6.  `setTargetAtTime(_, t, 0.01)` has a 10 ms *time constant*,
not a 10 ms settling time. -/
theorem chokeHiHat_not_silenced_within_10ms :
    (1 / 5 : ℝ) < gainValue (6 / 10) (chokeHiHat [] 0 (3 / 100)) (1 / 100)
    ∧ gainValue (6 / 10) (chokeHiHat [] 0 (3 / 100)) (5 / 100) < 2 / 5 := by
  have htimeline : chokeHiHat [] 0 (3 / 100)
      = [AutomEvent.mk (1 / 10000) 0 (1 / 100), AutomEvent.mk (6 / 10) (3 / 100) (1 / 20)] := by
    rfl
  constructor
  · rw [htimeline, gainValue_two_first (1 / 10000) 0 (1 / 100) (6 / 10) (3 / 100) (1 / 20)
      (6 / 10) (1 / 100) (by push_cast; norm_num) (by push_cast; norm_num)]
    have hexp1 : (-(((1 : ℝ) / 100) - ((0 : ℚ) : ℝ)) / ((1 / 100 : ℚ) : ℝ)) = -1 := by
      push_cast
      norm_num
    rw [hexp1]
    have hpos : (0 : ℝ) < Real.exp 1 := Real.exp_pos 1
    have hlt : Real.exp 1 < 3 := lt_trans Real.exp_one_lt_d9 (by norm_num)
    have hinv : (1 / 3 : ℝ) < Real.exp (-1) := by
      rw [Real.exp_neg]
      have hmul : Real.exp 1 * (Real.exp 1)⁻¹ = 1 := mul_inv_cancel₀ (ne_of_gt hpos)
      nlinarith [inv_pos.mpr hpos]
    push_cast
    nlinarith
  · rw [htimeline, gainValue_two_second (1 / 10000) 0 (1 / 100) (6 / 10) (3 / 100) (1 / 20)
      (6 / 10) (5 / 100) (by push_cast; norm_num) (by push_cast; norm_num)]
    have hexp3 : (-(((3 / 100 : ℚ) : ℝ) - ((0 : ℚ) : ℝ)) / ((1 / 100 : ℚ) : ℝ)) = -3 := by
      push_cast
      norm_num
    have hexp04 : (-(((5 : ℝ) / 100) - ((3 / 100 : ℚ) : ℝ)) / ((1 / 20 : ℚ) : ℝ))
        = -(2 / 5) := by
      push_cast
      norm_num
    rw [hexp3, hexp04]
    have he3 : Real.exp (-3) ≤ 1 / 4 := by
      rw [Real.exp_neg]
      have h4 : (4 : ℝ) ≤ Real.exp 3 := by
        have := Real.add_one_le_exp (3 : ℝ)
        linarith
      have hpos : (0 : ℝ) < Real.exp 3 := Real.exp_pos 3
      rw [inv_le_comm₀ hpos (by norm_num)]
      linarith
    have he3pos : (0 : ℝ) < Real.exp (-3) := Real.exp_pos _
    have he04low : (3 / 5 : ℝ) ≤ Real.exp (-(2 / 5)) := by
      have := Real.add_one_le_exp (-(2 / 5) : ℝ)
      linarith
    have he04hi : Real.exp (-(2 / 5)) ≤ 1 := Real.exp_le_one_iff.mpr (by norm_num)
    push_cast
    nlinarith

/-- Claim C3 amended: on every closed/pedal hi-hat trigger at time `t`
(with the restore timeout firing at `tRestore`), previously scheduled
level changes on the open-hat gain at or after `t` are cancelled, and
the new timeline is exactly a set-target event with target `0.0001`
(below 0.001) and 10 ms time constant at `t`, followed by a set-target
event back to the open-hat default `0.6` with a 50 ms time constant at
`tRestore`.  Between `t` and `tRestore` the gain follows the exponential
`0.0001 + (v₀ - 0.0001)·exp(-(x-t)/0.01)` — strictly decreasing toward
0.0001 (but only ≈ 37 % of the way down after 10 ms, reaching 0.001 only
after ≈ 64 ms for `v₀ = 0.6`) — and from `tRestore` on it approaches the
default `0.6` asymptotically with time constant 50 ms (so it is not yet
back at the default within 50 ms of the trigger). -/
theorem chokeHiHat_timeline (events : List AutomEvent) (t tr : ℚ) (v0 : ℝ) :
    chokeHiHat events t tr
      = events.filter (fun e => e.start < t)
        ++ [AutomEvent.mk (1 / 10000) t (1 / 100), AutomEvent.mk (6 / 10) tr (1 / 20)]
    ∧ (∀ x : ℝ, (t : ℝ) ≤ x → x < (tr : ℝ) →
        gainValue v0 (chokeHiHat [] t tr) x
          = ((1 / 10000 : ℚ) : ℝ)
            + (v0 - ((1 / 10000 : ℚ) : ℝ))
              * Real.exp (-(x - (t : ℝ)) / ((1 / 100 : ℚ) : ℝ)))
    ∧ (∀ x y : ℝ, (t : ℝ) ≤ x → x < y → y < (tr : ℝ) → ((1 / 10000 : ℚ) : ℝ) < v0 →
        gainValue v0 (chokeHiHat [] t tr) y < gainValue v0 (chokeHiHat [] t tr) x)
    ∧ (∀ x : ℝ, (t : ℝ) ≤ (tr : ℝ) → (tr : ℝ) ≤ x →
        gainValue v0 (chokeHiHat [] t tr) x
          = ((6 / 10 : ℚ) : ℝ)
            + ((((1 / 10000 : ℚ) : ℝ)
                + (v0 - ((1 / 10000 : ℚ) : ℝ))
                  * Real.exp (-((tr : ℝ) - (t : ℝ)) / ((1 / 100 : ℚ) : ℝ)))
                - ((6 / 10 : ℚ) : ℝ))
              * Real.exp (-(x - (tr : ℝ)) / ((1 / 20 : ℚ) : ℝ))) := by
  have htl : chokeHiHat [] t tr
      = [AutomEvent.mk (1 / 10000) t (1 / 100), AutomEvent.mk (6 / 10) tr (1 / 20)] := rfl
  refine ⟨rfl, ?_, ?_, ?_⟩
  · intro x hx1 hx2
    rw [htl, gainValue_two_first (1 / 10000) t (1 / 100) (6 / 10) tr (1 / 20) v0 x hx1 hx2]
  · intro x y hx hxy hy hv
    rw [htl, gainValue_two_first (1 / 10000) t (1 / 100) (6 / 10) tr (1 / 20) v0 x hx
        (lt_trans hxy hy),
      gainValue_two_first (1 / 10000) t (1 / 100) (6 / 10) tr (1 / 20) v0 y
        (le_trans hx (le_of_lt hxy)) hy]
    have hA : (0 : ℝ) < v0 - ((1 / 10000 : ℚ) : ℝ) := by linarith
    have htc : ((0 : ℝ)) < ((1 / 100 : ℚ) : ℝ) := by push_cast; norm_num
    have hexp : Real.exp (-(y - (t : ℝ)) / ((1 / 100 : ℚ) : ℝ))
        < Real.exp (-(x - (t : ℝ)) / ((1 / 100 : ℚ) : ℝ)) := by
      apply Real.exp_lt_exp.mpr
      gcongr
    nlinarith
  · intro x htr hx
    rw [htl, gainValue_two_second (1 / 10000) t (1 / 100) (6 / 10) tr (1 / 20) v0 x htr hx]

/-- Witness for the amended choke theorem: trigger at 0, restore timer at
30 ms, initial gain 0.6; the timeline, the exponential value 10 ms in,
and strict decay between 10 ms and 20 ms. -/
theorem chokeHiHat_timeline_witness :
    chokeHiHat [] 0 (3 / 100)
      = [AutomEvent.mk (1 / 10000) 0 (1 / 100), AutomEvent.mk (6 / 10) (3 / 100) (1 / 20)]
    ∧ gainValue (6 / 10) (chokeHiHat [] 0 (3 / 100)) (1 / 100)
        = ((1 / 10000 : ℚ) : ℝ)
          + ((6 / 10 : ℝ) - ((1 / 10000 : ℚ) : ℝ))
            * Real.exp (-((1 / 100 : ℝ) - ((0 : ℚ) : ℝ)) / ((1 / 100 : ℚ) : ℝ))
    ∧ gainValue (6 / 10) (chokeHiHat [] 0 (3 / 100)) (2 / 100)
        < gainValue (6 / 10) (chokeHiHat [] 0 (3 / 100)) (1 / 100) := by
  have h := chokeHiHat_timeline [] 0 (3 / 100) (6 / 10)
  refine ⟨h.1, h.2.1 (1 / 100) (by push_cast; norm_num) (by push_cast; norm_num),
    h.2.2.1 (1 / 100) (2 / 100) (by push_cast; norm_num) (by norm_num)
      (by push_cast; norm_num) (by push_cast; norm_num)⟩

/-! ## Recorder (src/app.js lines 380-405)

`startRecording()` returns at once if already recording; otherwise it
creates a `MediaRecorder`, clears `state.chunks`, starts it, sets
`state.recording = true`, and runs `tick()` immediately.  `tick` bails
out when `!state.recording`, computes `sec = floor((Date.now()-started)
/1000)`, and either calls `stopRecording()` when `sec >= 60`
(`state.maxRecSec`) or re-arms itself with `setTimeout(tick, 250)`.
`stopRecording()` returns at once unless recording; otherwise it clears
the flag and stops the recorder, whose `onstop` handler finalizes the
accumulated chunks into one `Blob`.  Wall-clock times are in
milliseconds; `d k` is the actual (possibly jittered) delay of the k-th
re-armed timeout. -/

structure RecState where
  recording : Bool
  recorder : Bool
  chunks : List ℕ
  finalizedBlob : Option (List ℕ)
  deriving DecidableEq

def startRecordingStep (s : RecState) : RecState :=
  if s.recording then s
  else { recording := true, recorder := true, chunks := [], finalizedBlob := s.finalizedBlob }

def stopRecordingStep (s : RecState) : RecState :=
  if s.recording = false then s
  else { s with recording := false, finalizedBlob := some s.chunks }

/-- The `tick` polling loop, fuel-indexed; returns the state and the
wall-clock time at which `stopRecording` fired (or `none` if recording
had already stopped, or the fuel ran out before the cap was reached). -/
def recTick : ℕ → ℚ → (ℕ → ℚ) → ℕ → ℚ → RecState → RecState × Option ℚ
  | 0, _, _, _, _, s => (s, none)
  | fuel + 1, started, d, k, now, s =>
    if s.recording = false then (s, none)
    else
      if (60 : ℤ) ≤ ⌊(now - started) / 1000⌋ then (stopRecordingStep s, some now)
      else recTick fuel started d (k + 1) (now + d k) s

def startRecording (fuel : ℕ) (started : ℚ) (d : ℕ → ℚ) (s : RecState) :
    RecState × Option ℚ :=
  if s.recording then (s, none)
  else recTick fuel started d 0 started (startRecordingStep s)

theorem recCap_floor_iff (started now : ℚ) :
    ((60 : ℤ) ≤ ⌊(now - started) / 1000⌋) ↔ started + 60000 ≤ now := by
  rw [Int.le_floor]
  constructor
  · intro h
    have := (le_div_iff₀ (by norm_num : (0 : ℚ) < 1000)).mp (by exact_mod_cast h)
    linarith
  · intro h
    have : (60 : ℚ) ≤ (now - started) / 1000 := by
      rw [le_div_iff₀ (by norm_num : (0 : ℚ) < 1000)]
      linarith
    exact_mod_cast this

theorem recTick_stops (started D : ℚ) (d : ℕ → ℚ) (hD : ∀ k, 250 ≤ d k ∧ d k ≤ D) :
    ∀ (fuel : ℕ) (k : ℕ) (now : ℚ) (s : RecState), s.recording = true →
      now < started + 60000 →
      tickCount (started + 60000) 250 now < fuel →
      ∃ T, recTick fuel started d k now s = (stopRecordingStep s, some T)
        ∧ started + 60000 ≤ T ∧ T < started + 60000 + D := by
  intro fuel
  induction fuel with
  | zero =>
    intro k now s _ hlt hfuel
    exact absurd hfuel (by omega)
  | succ n ih =>
    intro k now s hrec hlt hfuel
    have hcnt : 1 ≤ tickCount (started + 60000) 250 now :=
      tickCount_pos (by norm_num) hlt
    have hcond : ¬ ((60 : ℤ) ≤ ⌊(now - started) / 1000⌋) := by
      rw [recCap_floor_iff]
      linarith
    have hstep : recTick (n + 1) started d k now s
        = recTick n started d (k + 1) (now + d k) s := by
      simp only [recTick, hrec, Bool.true_eq_false, if_false, if_neg hcond]
    by_cases hnext : now + d k < started + 60000
    · have hshift : tickCount (started + 60000) 250 (now + 250) + 1
          = tickCount (started + 60000) 250 now := tickCount_shift (by norm_num) hlt
      have hanti : tickCount (started + 60000) 250 (now + d k)
          ≤ tickCount (started + 60000) 250 (now + 250) :=
        tickCount_anti (by norm_num) (by have := (hD k).1; linarith)
      have hfuel' : tickCount (started + 60000) 250 (now + d k) < n := by omega
      obtain ⟨T, hT, hT1, hT2⟩ := ih (k + 1) (now + d k) s hrec hnext hfuel'
      exact ⟨T, by rw [hstep, hT], hT1, hT2⟩
    · have hn1 : 1 ≤ n := by omega
      obtain ⟨m, rfl⟩ : ∃ m, n = m + 1 := ⟨n - 1, by omega⟩
      have hcond2 : (60 : ℤ) ≤ ⌊(now + d k - started) / 1000⌋ := by
        rw [recCap_floor_iff]
        linarith
      refine ⟨now + d k, ?_, by linarith, by have := (hD k).2; linarith⟩
      rw [hstep]
      simp only [recTick, hrec, Bool.true_eq_false, if_false, if_pos hcond2]

/-- Claim C8: starting from a non-recording state, once the elapsed time
observed by the ~250 ms poll reaches the 60-second cap the recorder is
automatically stopped: the recording flag is cleared, the chunks are
finalized into a single blob, the poll loop returns without re-arming,
and the stop happens at a poll time `T` with
`60000 ≤ T - started < 60000 + D`, where `D` bounds the actual poll
delays — never later than the cap plus one poll interval. -/
theorem recorder_cap_autostop (s : RecState) (hs : s.recording = false)
    (started D : ℚ) (d : ℕ → ℚ) (hD : ∀ k, 250 ≤ d k ∧ d k ≤ D)
    (fuel : ℕ) (hfuel : 240 < fuel) :
    ∃ T, startRecording fuel started d s
        = (RecState.mk false true [] (some []), some T)
      ∧ started + 60000 ≤ T ∧ T < started + 60000 + D := by
  have hstart : startRecordingStep s
      = RecState.mk true true [] s.finalizedBlob := by
    unfold startRecordingStep
    rw [if_neg (by rw [hs]; exact Bool.false_ne_true)]
  have hcnt : tickCount (started + 60000) 250 started = 240 := by
    apply tickCount_eq_of 240 (by norm_num) (by norm_num) (by norm_num)
  obtain ⟨T, hT, hT1, hT2⟩ := recTick_stops started D d hD fuel 0 started
    (startRecordingStep s) (by rw [hstart]) (by linarith) (by omega)
  refine ⟨T, ?_, hT1, hT2⟩
  unfold startRecording
  rw [if_neg (by rw [hs]; exact Bool.false_ne_true), hT, hstart]
  rfl

/-- Witness for C8: recording started at wall time 0 with exact 250 ms
polls stops at some `T` with `60000 ≤ T < 60250`. -/
theorem recorder_cap_autostop_witness :
    ∃ T, startRecording 241 0 (fun _ => 250) (RecState.mk false false [] none)
        = (RecState.mk false true [] (some []), some T)
      ∧ (0 : ℚ) + 60000 ≤ T ∧ T < 0 + 60000 + 250 :=
  recorder_cap_autostop (RecState.mk false false [] none) rfl 0 250 (fun _ => 250)
    (fun _ => ⟨le_refl _, le_refl _⟩) 241 (by norm_num)

/-- Claim C10: calling `startRecording` while already recording leaves
the recorder state unchanged and starts no poll loop; calling
`stopRecording` while not recording leaves the state unchanged. -/
theorem recorder_out_of_state_noops (s : RecState) (fuel : ℕ) (started : ℚ) (d : ℕ → ℚ) :
    (s.recording = true → startRecording fuel started d s = (s, none))
    ∧ (s.recording = false → stopRecordingStep s = s) := by
  constructor
  · intro h
    unfold startRecording
    rw [if_pos h]
  · intro h
    unfold stopRecordingStep
    rw [if_pos h]

/-- Witness for C10 at concrete states. -/
theorem recorder_out_of_state_noops_witness :
    startRecording 241 0 (fun _ => 250) (RecState.mk true true [] none)
        = (RecState.mk true true [] none, none)
    ∧ stopRecordingStep (RecState.mk false false [] none) = RecState.mk false false [] none :=
  ⟨(recorder_out_of_state_noops (RecState.mk true true [] none) 241 0 (fun _ => 250)).1 rfl,
   (recorder_out_of_state_noops (RecState.mk false false [] none) 241 0 (fun _ => 250)).2 rfl⟩

/-! ## Latency persistence (src/app.js lines 25, 324-330)

Load: `state.latencyMs = parseInt(localStorage.getItem("latencyMs")||"0",10)`.
`getItem` yields null (absent) or a string; `null` and `""` are falsy, so
they fall back to `'0'`; any other string goes through `parseInt(s, 10)`,
which skips leading spaces, accepts an optional sign, and parses the
longest leading run of decimal digits — returning `NaN` when that run is
empty.  `NaN` is modelled as `none`.
Save: `state.latencyMs = parseInt(latencyEl.value,10)||0` (the `||0`
coerces `NaN` to 0) followed by `setItem("latencyMs",
String(state.latencyMs))`; `String` of an integer is its decimal
representation with a leading `-` when negative. -/

def digitVal (c : Char) : Option ℕ :=
  if c = '0' then some 0
  else if c = '1' then some 1
  else if c = '2' then some 2
  else if c = '3' then some 3
  else if c = '4' then some 4
  else if c = '5' then some 5
  else if c = '6' then some 6
  else if c = '7' then some 7
  else if c = '8' then some 8
  else if c = '9' then some 9
  else none

def digitChar (d : ℕ) : Char :=
  if d = 0 then '0'
  else if d = 1 then '1'
  else if d = 2 then '2'
  else if d = 3 then '3'
  else if d = 4 then '4'
  else if d = 5 then '5'
  else if d = 6 then '6'
  else if d = 7 then '7'
  else if d = 8 then '8'
  else '9'

def parseDigitRun (cs : List Char) : Option ℕ :=
  let run := cs.takeWhile (fun c => (digitVal c).isSome)
  if run = [] then none
  else some (run.foldl (fun a c => 10 * a + (digitVal c).getD 0) 0)

def jsParseInt (s : String) : Option ℤ :=
  match s.data.dropWhile (fun c => c == ' ') with
  | [] => none
  | c :: rest =>
    if c = '-' then (parseDigitRun rest).map (fun n : ℕ => -(n : ℤ))
    else if c = '+' then (parseDigitRun rest).map (fun n : ℕ => (n : ℤ))
    else (parseDigitRun (c :: rest)).map (fun n : ℕ => (n : ℤ))

def natChars (n : ℕ) : List Char :=
  if n = 0 then ['0'] else ((Nat.digits 10 n).map digitChar).reverse

def jsIntToString (k : ℤ) : String :=
  if k < 0 then String.mk ('-' :: natChars k.natAbs) else String.mk (natChars k.natAbs)

def loadLatencyMs (stored : Option String) : Option ℤ :=
  jsParseInt (match stored with
    | none => "0"
    | some s => if s = "" then "0" else s)

def saveLatencyMs (input : String) : String :=
  jsIntToString ((jsParseInt input).getD 0)

theorem digit_roundtrip : ∀ d, d < 10 → digitVal (digitChar d) = some d := by decide

theorem digitChar_not_special : ∀ d, d < 10 →
    digitChar d ≠ '-' ∧ digitChar d ≠ '+' ∧ (digitChar d == ' ') = false := by decide

theorem natChars_ne_nil (n : ℕ) : natChars n ≠ [] := by
  unfold natChars
  split
  · exact List.cons_ne_nil _ _
  · intro h
    rw [List.reverse_eq_nil_iff, List.map_eq_nil_iff] at h
    exact (Nat.digits_ne_nil_iff_ne_zero.mpr (by assumption)) h

theorem natChars_all_digits (n : ℕ) :
    ∀ c ∈ natChars n, ∃ d, d < 10 ∧ c = digitChar d := by
  intro c hc
  unfold natChars at hc
  by_cases h0 : n = 0
  · rw [if_pos h0] at hc
    have : c = '0' := by
      cases hc with
      | head => rfl
      | tail _ h => cases h
    exact ⟨0, by norm_num, this⟩
  · rw [if_neg h0, List.mem_reverse, List.mem_map] at hc
    obtain ⟨d, hd, rfl⟩ := hc
    exact ⟨d, Nat.digits_lt_base (by norm_num) hd, rfl⟩

theorem foldl_digitChars : ∀ (L : List ℕ), (∀ d ∈ L, d < 10) → ∀ a : ℕ,
    ((L.map digitChar).reverse).foldl (fun acc c => 10 * acc + (digitVal c).getD 0) a
      = a * 10 ^ L.length + Nat.ofDigits 10 L := by
  intro L
  induction L with
  | nil =>
    intro _ a
    simp [Nat.ofDigits]
  | cons d L' ih =>
    intro hall a
    have hd : d < 10 := hall d (List.mem_cons_self _ _)
    rw [List.map_cons, List.reverse_cons, List.foldl_append]
    rw [ih (fun x hx => hall x (List.mem_cons_of_mem _ hx)) a]
    simp only [List.foldl_cons, List.foldl_nil]
    rw [digit_roundtrip d hd]
    simp only [Option.getD_some]
    rw [Nat.ofDigits_cons, List.length_cons, pow_succ]
    ring

theorem parseDigitRun_natChars (n : ℕ) : parseDigitRun (natChars n) = some n := by
  have hall : ∀ c ∈ natChars n, ((digitVal c).isSome = true) := by
    intro c hc
    obtain ⟨d, hd, rfl⟩ := natChars_all_digits n c hc
    rw [digit_roundtrip d hd]
    rfl
  have htake : (natChars n).takeWhile (fun c => (digitVal c).isSome) = natChars n :=
    List.takeWhile_eq_self_iff.mpr hall
  unfold parseDigitRun
  rw [htake, if_neg (natChars_ne_nil n)]
  congr 1
  by_cases h0 : n = 0
  · subst h0
    rfl
  · unfold natChars
    rw [if_neg h0, foldl_digitChars (Nat.digits 10 n)
      (fun d hd => Nat.digits_lt_base (by norm_num) hd) 0]
    simp [Nat.ofDigits_digits]

theorem jsParseInt_natChars (n : ℕ) :
    jsParseInt (String.mk (natChars n)) = some ((n : ℤ)) := by
  obtain ⟨c0, cs0, heq⟩ := List.exists_cons_of_ne_nil (natChars_ne_nil n)
  obtain ⟨d, hd, hc0⟩ := natChars_all_digits n c0 (by rw [heq]; exact List.mem_cons_self _ _)
  have hspec := digitChar_not_special d hd
  simp only [jsParseInt]
  rw [heq, hc0, List.dropWhile_cons]
  rw [if_neg (by rw [hspec.2.2]; exact Bool.false_ne_true)]
  show (if digitChar d = '-' then (parseDigitRun cs0).map (fun n : ℕ => -(n : ℤ))
      else if digitChar d = '+' then (parseDigitRun cs0).map (fun n : ℕ => (n : ℤ))
      else (parseDigitRun (digitChar d :: cs0)).map (fun n : ℕ => (n : ℤ))) = some ((n : ℤ))
  rw [if_neg hspec.1, if_neg hspec.2.1, ← hc0, ← heq, parseDigitRun_natChars n]
  rfl

theorem jsParseInt_roundtrip (k : ℤ) : jsParseInt (jsIntToString k) = some k := by
  rcases le_or_lt 0 k with hk | hk
  · unfold jsIntToString
    rw [if_neg (not_lt.mpr hk), jsParseInt_natChars k.natAbs]
    congr 1
    omega
  · unfold jsIntToString
    rw [if_pos hk]
    simp only [jsParseInt]
    rw [List.dropWhile_cons]
    rw [if_neg (by decide)]
    show (if ('-' : Char) = '-'
          then (parseDigitRun (natChars k.natAbs)).map (fun n : ℕ => -(n : ℤ))
        else if ('-' : Char) = '+'
          then (parseDigitRun (natChars k.natAbs)).map (fun n : ℕ => (n : ℤ))
        else (parseDigitRun ('-' :: natChars k.natAbs)).map (fun n : ℕ => (n : ℤ))) = some k
    rw [if_pos rfl, parseDigitRun_natChars]
    show some (-(k.natAbs : ℤ)) = some k
    congr 1
    omega

/-- Claim C9 counterexample: a stored value that is not a valid integer
string — here `"abc"` — is *not* loaded as 0: the load path
`parseInt(stored||'0',10)` takes the stored string (non-empty, hence
truthy) and `parseInt("abc")` is `NaN` (modelled `none`), because only
the save path has the `||0` guard. -/
theorem loadLatency_invalid_not_zero :
    loadLatencyMs (some ("abc")) = none ∧ loadLatencyMs (some ("abc")) ≠ some 0 := by
  have h1 : loadLatencyMs (some ("abc")) = none := rfl
  refine ⟨h1, ?_⟩
  rw [h1]
  intro h
  exact Option.noConfusion h

/-- Claim C9 amended: every integer saved through the settings save path
round-trips identically through a fresh load; an absent or *empty*
stored value loads as 0; but a stored non-empty string with no leading
integer loads as `NaN` (`none`), not 0.  Anything that went through the
save operation (which coerces `NaN` to 0 before storing) always loads
back as the integer that was stored. -/
theorem latency_persistence_amended :
    (∀ k : ℤ, loadLatencyMs (some (jsIntToString k)) = some k)
    ∧ loadLatencyMs none = some 0
    ∧ loadLatencyMs (some ("")) = some 0
    ∧ (∀ s : String, s ≠ "" → jsParseInt s = none → loadLatencyMs (some s) = none)
    ∧ (∀ input : String,
        loadLatencyMs (some (saveLatencyMs input)) = some ((jsParseInt input).getD 0)) := by
  have hmkne : ∀ l : List Char, l ≠ [] → String.mk l ≠ "" := by
    intro l hl h
    apply hl
    have : (String.mk l).data = ("" : String).data := by rw [h]
    exact this
  have hstrne : ∀ k : ℤ, jsIntToString k ≠ "" := by
    intro k
    unfold jsIntToString
    split
    · exact hmkne _ (List.cons_ne_nil _ _)
    · exact hmkne _ (natChars_ne_nil _)
  have hload : ∀ k : ℤ, loadLatencyMs (some (jsIntToString k)) = some k := by
    intro k
    show jsParseInt (if jsIntToString k = "" then "0" else jsIntToString k) = some k
    rw [if_neg (hstrne k)]
    exact jsParseInt_roundtrip k
  refine ⟨hload, rfl, rfl, ?_, ?_⟩
  · intro s hs hp
    show jsParseInt (if s = "" then "0" else s) = none
    rw [if_neg hs]
    exact hp
  · intro input
    exact hload ((jsParseInt input).getD 0)

/-- Witness for the amended persistence theorem: -37 round-trips, and the
non-numeric non-empty string `"x7"` loads as `NaN`. -/
theorem latency_persistence_amended_witness :
    loadLatencyMs (some (jsIntToString (-37))) = some (-37)
    ∧ loadLatencyMs (some ("x7")) = none := by
  refine ⟨latency_persistence_amended.1 (-37),
    latency_persistence_amended.2.2.2.1 ("x7") ?_ ?_⟩
  · intro h
    exact absurd (congrArg String.data h) (by simp)
  · rfl
